import Mathlib

/-!
# Verification of the akore tokenizer / transpiler core

Shallow embedding of the akore repository's core (src/core/token.ts,
src/core/lexer.ts, src/core/base.competence.ts, src/core/schema.ts,
src/core/registry.ts, src/common/classes.ts and the BaseTranspiler
parse/eater logic), together with theorems settling the frozen claims
about it.

Strings are Lean strings; regular expressions that the code only ever
tests against a single character (opener / closer / inside) are embedded
as character predicates, and the foremost pattern (tested against whole
matched text) as a string predicate.  JavaScript numbers used as depth
counters are Int; JavaScript string truthiness (empty string is falsy)
is made explicit at each use site.
-/

namespace Akore

/-- JavaScript String.prototype.slice with the negative-index convention:
a negative bound counts from the end of the string, bounds are clamped to
the string length, and an empty string results when start is not below
the end bound. -/
def jsSlice (s : String) (a b : Int) : String :=
  let n : Int := s.length
  let aa : Int := if a < 0 then max (n + a) 0 else min a n
  let bb : Int := if b < 0 then max (n + b) 0 else min b n
  if aa < bb then ((s.toList.drop aa.toNat).take (bb - aa).toNat).asString else ""

/-- JavaScript String.prototype.lastIndexOf for a single character with a
fromIndex: the greatest position not exceeding fromIndex holding the
character, or -1 when there is none. -/
def jsLastIndexOfChar (s : String) (ch : Char) (fromIdx : Nat) : Int :=
  match ((List.range (fromIdx + 1)).filter (fun i => s.toList.get? i = some ch)).getLast? with
  | some i => (i : Int)
  | none => -1

/-- LexicalFlags from base.competence.ts: UNSTOPPABLE = 1, DIRECT_ENTRY = 2. -/
def UNSTOPPABLE : Nat := 1

/-- DIRECT_ENTRY flag bit. -/
def DIRECT_ENTRY : Nat := 2

/-- Patterns from base.competence.ts.  `foremost` is a regular expression
the lexer tests against the whole matched text; opener / inside / closer
are only ever tested against one character, so they are embedded as
optional character predicates (absent means the pattern is undefined). -/
structure Patterns where
  foremost : String → Bool
  opener : Option (Char → Bool)
  inside : Option (Char → Bool)
  closer : Option (Char → Bool)

/-- Eaters from base.competence.ts: ordered identifier lists, each
optional (undefined in TypeScript). -/
structure Eaters where
  before : Option (List String)
  after : Option (List String)

/-- BaseCompetence data from base.competence.ts: identifier, patterns,
optional eaters and flags (`const { flags = 0 }` makes an absent flags
field behave as 0, so flags is a plain bitmask here). -/
structure Competence where
  identifier : String
  patterns : Patterns
  eaters : Option Eaters
  flags : Nat

/-- A RegExpMatchArray as token.ts uses it: the matched text (match[0]),
the match index, the original input, and the named capture groups
(`undefined` captures are `none`).  `match.groups` itself is undefined
(`none`) when the pattern declares no named group. -/
structure RegExpMatch where
  text : String
  index : Nat
  input : String
  groups : Option (List (String × Option String))

/-- `opener?.test(char)` style call: an undefined pattern is falsy. -/
def optTest (p : Option (Char → Bool)) (ch : Char) : Bool :=
  match p with
  | some f => f ch
  | none => false

/-- `inside === undefined || inside?.test(char)`: an undefined inside
pattern lets every character through. -/
def optTestInside (p : Option (Char → Bool)) (ch : Char) : Bool :=
  match p with
  | some f => f ch
  | none => true

/-- The character scan of the Token constructor (token.ts lines 86-123),
over the characters after the opener position, with the running depth
counter and the accumulated inside buffer.  Returns the extracted inside
text and the recorded closer character ("" when the scan ended without
reaching the closer at depth 0). -/
def extractLoop (openerP insideP : Option (Char → Bool)) (closerP : Char → Bool)
    (unstoppable : Bool) : List Char → Int → String → String × String
  | [], _, acc => (acc, "")
  | ch :: rest, depth, acc =>
    if closerP ch && depth == 0 then
      (acc, String.singleton ch)
    else
      let d1 : Int := if optTest openerP ch then depth + 1 else depth
      let d2 : Int := if closerP ch then d1 - 1 else d1
      if optTestInside insideP ch then
        extractLoop openerP insideP closerP unstoppable rest d2 (acc.push ch)
      else if unstoppable then
        extractLoop openerP insideP closerP unstoppable rest d2 acc
      else
        (acc, "")

/-- Token from token.ts.  `mtch` is the backing RegExpMatchArray (named
`match` in the source, which is a keyword here); eated.before and
eated.after are inlined as two token lists. -/
inductive Token where
  | mk
    (competence : Competence)
    (mtch : RegExpMatch)
    (opener : String)
    (closer : String)
    (inside : Option String)
    (eatedBefore : List Token)
    (eatedAfter : List Token)

/-- The competence associated with the token. -/
def Token.competence : Token → Competence
  | .mk c _ _ _ _ _ _ => c

/-- The backing match array. -/
def Token.mtch : Token → RegExpMatch
  | .mk _ m _ _ _ _ _ => m

/-- The recorded opener character ("" when none was consumed). -/
def Token.opener : Token → String
  | .mk _ _ o _ _ _ _ => o

/-- The recorded closer character ("" when extraction did not reach it). -/
def Token.closer : Token → String
  | .mk _ _ _ c _ _ _ => c

/-- The extracted inside text; `none` models the undefined field. -/
def Token.inside : Token → Option String
  | .mk _ _ _ _ i _ _ => i

/-- Tokens consumed before this one (eated.before). -/
def Token.eatedBefore : Token → List Token
  | .mk _ _ _ _ _ b _ => b

/-- Tokens consumed after this one (eated.after). -/
def Token.eatedAfter : Token → List Token
  | .mk _ _ _ _ _ _ a => a

/-- `token.eated.before.push(prev)`. -/
def Token.withEatedBefore : Token → Token → Token
  | .mk c m o cl i eb ea, p => .mk c m o cl i (eb ++ [p]) ea

/-- `token.eated.after.push(next)`. -/
def Token.withEatedAfter : Token → Token → Token
  | .mk c m o cl i eb ea, n => .mk c m o cl i eb (ea ++ [n])

/-- The Token constructor (token.ts lines 49-127).  Returns an error for
the thrown "Inside processing requires a closer." configuration error.
The `match.index !== undefined && match.input` guard reduces to the
input being nonempty, since the index is always present in the model. -/
def mkToken (c : Competence) (m : RegExpMatch) : Except String Token :=
  let base : Token := .mk c m "" "" none [] []
  if m.input = "" then .ok base
  else
    let forced : Bool := c.flags &&& DIRECT_ENTRY != 0
    if forced || c.patterns.opener.isSome then
      match c.patterns.closer with
      | none => .error "Inside processing requires a closer."
      | some closerF =>
        let after := m.input.drop (m.index + m.text.length)
        match after.toList with
        | [] => .ok base
        | a0 :: atail =>
          if forced || optTest c.patterns.opener a0 then
            let op := if forced then "" else String.singleton a0
            let res := extractLoop c.patterns.opener c.patterns.inside closerF
              (c.flags &&& UNSTOPPABLE != 0) atail 0 ""
            .ok (.mk c m op res.2 (some res.1) [] [])
          else .ok base
    else .ok base

/-- Token.start getter: match.index (the index is always present here). -/
def Token.start (t : Token) : Nat :=
  t.mtch.index

/-- Token.total getter (token.ts lines 168-173).  `if (this.inside)` is
JavaScript truthiness: the opener/inside/closer concatenation is used
only when inside is defined and nonempty. -/
def Token.total (t : Token) : String :=
  match t.inside with
  | some s => if s = "" then t.mtch.text else t.mtch.text ++ t.opener ++ s ++ t.closer
  | none => t.mtch.text

/-- Token.end getter: start + total length. -/
def Token.end (t : Token) : Nat :=
  t.start + t.total.length

/-- Token.line getter: 1 + the number of newlines before start. -/
def Token.line (t : Token) : Nat :=
  1 + (t.mtch.input.toList.take t.start).count '\n'

/-- Token.column getter: start - lastIndexOf of a newline at or before
start (-1, hence start + 1, when there is none; the `?? 0` fallback for
an undefined input never fires in the model). -/
def Token.column (t : Token) : Int :=
  (t.start : Int) - jsLastIndexOfChar t.mtch.input '\n' t.start

/-- Token.groups getter (token.ts lines 178-182): the named groups of the
backing match filtered by `([, value]) => value`, i.e. JavaScript
truthiness, keeping only captures that are defined and nonempty. -/
def Token.groups (t : Token) : List (String × String) :=
  match t.mtch.groups with
  | none => []
  | some gs => gs.filterMap (fun kv =>
      match kv.2 with
      | some v => if v = "" then none else some (kv.1, v)
      | none => none)

/-- Extract the inside field of a construction result (for stating
evaluations without comparing competence function fields). -/
def insideOf (r : Except String Token) : Option String :=
  match r with
  | .ok t => t.inside
  | .error _ => none

/-- The brace-block competence of claim C1: opener is the open brace,
closer the close brace, flags DIRECT_ENTRY ||| UNSTOPPABLE, no inside
pattern; the identifier and foremost pattern are arbitrary. -/
def braceCompetence (ident : String) (foremost : String → Bool) : Competence :=
  { identifier := ident
    patterns :=
      { foremost := foremost
        opener := some (fun ch => ch == '\x7b')
        inside := none
        closer := some (fun ch => ch == '\x7d') }
    eaters := none
    flags := DIRECT_ENTRY ||| UNSTOPPABLE }

/-- The C1 scenario match: the foremost matched the leading open brace of
the input (as the repository's own block competence, foremost matching a
brace, produces on this input). -/
def braceMatch : RegExpMatch :=
  { text := "\x7b", index := 0, input := "\x7b a \x7b b \x7d c \x7d", groups := none }

/-- C1 counterexample: for the brace competence with opener/closer braces
and flags DIRECT_ENTRY ||| UNSTOPPABLE, the token constructed from the
match of the leading brace of the input does not extract
" a \x7b b \x7d c " as the claim states: the constructor's scan starts
at index 1 of the text after the match even though DIRECT_ENTRY consumes
no opener character, so the leading space is dropped and the extracted
inside is "a \x7b b \x7d c ". -/
theorem claim1_nested_extraction_cex :
    insideOf (mkToken (braceCompetence "block" (fun s => s == "\x7b")) braceMatch)
      ≠ some " a \x7b b \x7d c "
    ∧ insideOf (mkToken (braceCompetence "block" (fun s => s == "\x7b")) braceMatch)
      = some "a \x7b b \x7d c " := by
  constructor
  · intro h
    rw [show insideOf (mkToken (braceCompetence "block" (fun s => s == "\x7b")) braceMatch)
        = some "a \x7b b \x7d c " from rfl] at h
    simp at h
  · rfl

/-- C1 amended: for every competence whose opener pattern is the open
brace, closer pattern the close brace, inside pattern undefined and
flags DIRECT_ENTRY ||| UNSTOPPABLE, constructing a Token from the match
of the leading brace on the input "\x7b a \x7b b \x7d c \x7d"
extracts inside exactly "a \x7b b \x7d c " — extraction skips the
character directly after the match (no opener character is recorded
under DIRECT_ENTRY), is depth-balanced (the inner balanced brace pair
stays in the buffer), and the closer brace terminates extraction only at
depth 0, being recorded as the closer. -/
theorem claim1_nested_extraction_amended (c : Competence)
    (hop : c.patterns.opener = some (fun ch => ch == '\x7b'))
    (hin : c.patterns.inside = none)
    (hcl : c.patterns.closer = some (fun ch => ch == '\x7d'))
    (hfl : c.flags = DIRECT_ENTRY ||| UNSTOPPABLE) :
    ∃ t : Token, mkToken c braceMatch = .ok t
      ∧ t.inside = some "a \x7b b \x7d c "
      ∧ t.closer = "\x7d"
      ∧ t.opener = "" := by
  refine ⟨.mk c braceMatch "" "\x7d" (some "a \x7b b \x7d c ") [] [], ?_, rfl, rfl, rfl⟩
  simp only [mkToken, hop, hin, hcl, hfl]
  rfl

/-- C1 witness: the amended statement applied to the concrete brace
competence. -/
theorem claim1_nested_extraction_amended_w : ∃ t : Token,
    mkToken (braceCompetence "block" (fun s => s == "\x7b")) braceMatch = .ok t
      ∧ t.inside = some "a \x7b b \x7d c "
      ∧ t.closer = "\x7d"
      ∧ t.opener = "" :=
  claim1_nested_extraction_amended (braceCompetence "block" (fun s => s == "\x7b"))
    rfl rfl rfl rfl

/-- The C2 counterexample competence: a literal-style competence with
opener and closer parentheses and no flags. -/
def parenCompetence : Competence :=
  { identifier := "literal"
    patterns :=
      { foremost := fun s => s == "f"
        opener := some (fun ch => ch == '(')
        inside := none
        closer := some (fun ch => ch == ')') }
    eaters := none
    flags := 0 }

/-- The C2 counterexample match: the match "f" at index 0 of the input
"f()", an opener immediately followed by its closer. -/
def parenEmptyMatch : RegExpMatch :=
  { text := "f", index := 0, input := "f()", groups := none }

/-- The token the constructor produces for the "f()" scenario: opener
"(", closer ")", extracted inside "". -/
def parenEmptyToken : Token :=
  .mk parenCompetence parenEmptyMatch "(" ")" (some "") [] []

/-- C2 counterexample: for the token constructed from "f()" (opener
immediately followed by its closer, so the extracted inside is the empty
string), total is just the raw match text "f" and differs from the
concatenation match ++ opener ++ inside ++ closer = "f()": the getter
tests `if (this.inside)`, and the empty string is falsy. -/
theorem claim2_total_cex :
    mkToken parenCompetence parenEmptyMatch = .ok parenEmptyToken
    ∧ parenEmptyToken.total = "f"
    ∧ parenEmptyToken.mtch.text ++ parenEmptyToken.opener
        ++ "" ++ parenEmptyToken.closer = "f()"
    ∧ parenEmptyToken.total ≠ parenEmptyToken.mtch.text ++ parenEmptyToken.opener
        ++ "" ++ parenEmptyToken.closer := by
  refine ⟨rfl, rfl, rfl, ?_⟩
  rw [show parenEmptyToken.total = "f" from rfl]
  rw [show parenEmptyToken.mtch.text ++ parenEmptyToken.opener
      ++ "" ++ parenEmptyToken.closer = "f()" from rfl]
  simp

/-- C2 amended: for every constructed Token, total equals the
concatenation of the raw match text, the recorded opener, the extracted
inside and the recorded closer whenever the extracted inside is defined
and nonempty; when the inside is undefined or the empty string (for
example an opener immediately followed by its closer), total is the raw
match text alone. -/
theorem claim2_total_amended (c : Competence) (m : RegExpMatch) (t : Token)
    (_h : mkToken c m = .ok t) :
    (∀ s : String, t.inside = some s → s ≠ "" →
      t.total = t.mtch.text ++ t.opener ++ s ++ t.closer)
    ∧ (t.inside = none ∨ t.inside = some "" → t.total = t.mtch.text) := by
  constructor
  · intro s hs hne
    simp [Token.total, hs, hne]
  · rintro (hi | hi) <;> simp [Token.total, hi]

/-- The C2 witness match: "f" at index 0 of "f(x)", whose extracted
inside "x" is nonempty. -/
def parenFullMatch : RegExpMatch :=
  { text := "f", index := 0, input := "f(x)", groups := none }

/-- C2 witness: the amended statement applied to the tokens constructed
from "f(x)" (nonempty inside) and "f()" (empty inside). -/
theorem claim2_total_amended_w :
    (Token.mk parenCompetence parenFullMatch "(" ")" (some "x") [] []).total
      = "f" ++ "(" ++ "x" ++ ")"
    ∧ parenEmptyToken.total = "f" := by
  constructor
  · exact (claim2_total_amended parenCompetence parenFullMatch _ rfl).1 "x" rfl (by simp)
  · exact (claim2_total_amended parenCompetence parenEmptyMatch parenEmptyToken rfl).2
      (Or.inr rfl)

/-- A token whose backing match has one named capture group whose
captured value is defined but empty. -/
def emptyGroupToken : Token :=
  .mk parenCompetence
    { text := "f", index := 0, input := "f", groups := some [("g", some "")] }
    "" "" none [] []

/-- C9 counterexample: a named capture group whose defined captured value
is the empty string is not in the groups field — the getter filters the
entries by JavaScript truthiness of the value, dropping empty strings,
while the claim requires every defined capture (including empty ones) to
be kept. -/
theorem claim9_groups_cex :
    emptyGroupToken.mtch.groups = some [("g", some "")]
    ∧ emptyGroupToken.groups = [] := by
  exact ⟨rfl, rfl⟩

/-- C9 amended: for every constructed Token, the groups field contains
exactly those named capture groups of the backing match whose captured
values are defined and nonempty, mapping each such name to its captured
string (a group capturing the empty string is dropped). -/
theorem claim9_groups_amended (t : Token) (k v : String) :
    (k, v) ∈ t.groups ↔
      (∃ gs, t.mtch.groups = some gs ∧ (k, some v) ∈ gs ∧ v ≠ "") := by
  unfold Token.groups
  cases hg : t.mtch.groups with
  | none => simp
  | some gs =>
    simp only [List.mem_filterMap, Option.some.injEq]
    constructor
    · rintro ⟨⟨k', ov⟩, hmem, hf⟩
      refine ⟨gs, rfl, ?_⟩
      cases ov with
      | none => simp at hf
      | some w =>
        by_cases hw : w = "" <;> simp [hw] at hf
        obtain ⟨hk, hv⟩ := hf
        subst hk; subst hv
        exact ⟨hmem, hw⟩
    · rintro ⟨gs', hgs', hmem, hv⟩
      subst hgs'
      exact ⟨(k, some v), hmem, by simp [hv]⟩

/-- LexerOptions from lexer.ts: FailWhenUnmatch = 1. -/
def FailWhenUnmatch : Nat := 1

/-- The result of executing the combined foremost pattern against the
input starting at the regex lastIndex: the match index, the matched text
and the named groups.  Abstracting the combined regular expression as
such an exec function is the boundary of the embedding; concrete
matchers below model the concrete patterns the theorems need. -/
structure MatchRes where
  index : Nat
  text : String
  groups : Option (List (String × Option String))

/-- The exec function of a compiled global pattern: from a lastIndex,
either no further match or the next match (whose index is at or after
the lastIndex); executing it advances lastIndex to index + length of the
matched text, as JavaScript exec does on a global regex. -/
def Matcher : Type :=
  String → Nat → Option MatchRes

/-- JavaScript String.prototype.trim restricted to the ASCII whitespace
characters (space, tab, newline, carriage return, vertical tab, form
feed); written over character lists so that it evaluates by reduction. -/
def jsWhitespace (c : Char) : Bool :=
  c == ' ' || c == '\t' || c == '\n' || c == '\r' || c == '\x0b' || c == '\x0c'

/-- Trim whitespace from both ends of a string. -/
def jsTrim (s : String) : String :=
  (((s.toList.dropWhile jsWhitespace).reverse.dropWhile jsWhitespace).reverse).asString

/-- Lexer.tokenize result: the yielded tokens together with how the
generator ended — normally (the combined pattern found no further
match), by the strict-mode gap error (carrying the trimmed gap text, the
reported line and the reported column, which is
token.start - trimmed.length), by a Token-constructor configuration
error, or still running when the modelling fuel ran out (the generator
has not terminated within that many iterations). -/
inductive TokResult where
  | done (tokens : List Token)
  | gapErr (trimmed : String) (line : Nat) (col : Int) (tokens : List Token)
  | tokenErr (msg : String) (tokens : List Token)
  | outOfFuel (tokens : List Token)

/-- The tokenize loop of lexer.ts (lines 89-128), one iteration per unit
of fuel: execute the combined pattern at the current lastIndex, pick the
first competence whose foremost accepts the matched text (none: warn and
continue, with lastIndex as exec left it), construct the token, in
strict mode compare the text sliced from the previous token's end to one
before the current token's start against whitespace and fail on a
nonempty trimmed remainder, else yield the token and resume at
token.end. -/
def tokenizeLoop (mexec : Matcher) (cs : List Competence) (opts : Nat) (input : String) :
    Nat → Nat → Option Token → List Token → TokResult
  | 0, _, _, acc => .outOfFuel acc
  | fuel + 1, lastIndex, last, acc =>
    match mexec input lastIndex with
    | none => .done acc
    | some mr =>
      match cs.find? (fun c => c.patterns.foremost mr.text) with
      | none => tokenizeLoop mexec cs opts input fuel (mr.index + mr.text.length) last acc
      | some c =>
        match mkToken c { text := mr.text, index := mr.index, input := input, groups := mr.groups } with
        | .error e => .tokenErr e acc
        | .ok token =>
          if opts &&& FailWhenUnmatch != 0 then
            match last with
            | some lastTok =>
              if jsTrim (jsSlice input (lastTok.end : Int) ((token.start : Int) - 1)) != "" then
                .gapErr (jsTrim (jsSlice input (lastTok.end : Int) ((token.start : Int) - 1)))
                  token.line
                  ((token.start : Int)
                    - ((jsTrim (jsSlice input (lastTok.end : Int) ((token.start : Int) - 1))).length : Int))
                  acc
              else
                tokenizeLoop mexec cs opts input fuel token.end (some token) (acc ++ [token])
            | none => tokenizeLoop mexec cs opts input fuel token.end (some token) (acc ++ [token])
          else
            tokenizeLoop mexec cs opts input fuel token.end last (acc ++ [token])

/-- Lexer.tokenize from the initial generator state: lastIndex 0, no
previous token, nothing yielded. -/
def tokenize (mexec : Matcher) (cs : List Competence) (opts : Nat) (input : String)
    (fuel : Nat) : TokResult :=
  tokenizeLoop mexec cs opts input fuel 0 none []

/-- The exec function of the pattern Lexer.createPattern builds from
zero competences: joining no alternatives gives the empty source, and
the empty pattern matches the empty string at every position up to the
input length without advancing lastIndex (JavaScript exec on a global
regex sets lastIndex to match.index + match length = lastIndex). -/
def emptyPatternExec : Matcher :=
  fun input lastIndex =>
    if lastIndex ≤ input.length then some { index := lastIndex, text := "", groups := none }
    else none

/-- C3: with zero registered competences tokenize never terminates and
never yields a token: the empty combined pattern keeps matching the
empty string at position 0, no competence is found for it, and the
continue branch leaves lastIndex unchanged, so for every amount of fuel
the loop is still running with nothing yielded — it does not terminate
with an empty sequence as the claim states. -/
theorem claim3_zero_competences_diverges (input : String) (opts fuel : Nat) :
    tokenize emptyPatternExec [] opts input fuel = .outOfFuel [] := by
  induction fuel with
  | zero => rfl
  | succ n ih =>
    have h0 : emptyPatternExec input 0 = some { index := 0, text := "", groups := none } := by
      simp [emptyPatternExec]
    unfold tokenize at ih ⊢
    rw [tokenizeLoop, h0]
    simpa using ih


/-- The exec function of the combined pattern built from the single
foremost pattern matching the literal text `lit`: the first occurrence
of `lit` at or after the lastIndex. -/
def litExec (lit : String) : Matcher :=
  fun input lastIndex =>
    ((List.range (input.length + 1)).find? (fun j =>
      decide (lastIndex ≤ j) && ((input.toList.drop j).take lit.length == lit.toList))).map
      (fun j => { index := j, text := lit, groups := none })

/-- A competence whose foremost matches the literal text "a", with no
opener/inside/closer patterns and no flags. -/
def aCompetence : Competence :=
  { identifier := "a"
    patterns := { foremost := fun s => s == "a", opener := none, inside := none, closer := none }
    eaters := none
    flags := 0 }

/-- The token for the "a" at index 0 of "aXa". -/
def aToken0 : Token :=
  .mk aCompetence { text := "a", index := 0, input := "aXa", groups := none } "" "" none [] []

/-- The token for the "a" at index 2 of "aXa". -/
def aToken2 : Token :=
  .mk aCompetence { text := "a", index := 2, input := "aXa", groups := none } "" "" none [] []

/-- C4 counterexample: in strict mode on input "aXa" with a competence
matching "a", the text strictly between the first token's end (1) and
the second token's start (2) is the non-whitespace "X", yet tokenize
finishes normally with both tokens and raises no gap error: the code
slices input from last.end only up to token.start - 1, so the character
directly before the next token is never inspected. -/
theorem claim4_strict_gap_cex :
    tokenize (litExec "a") [aCompetence] FailWhenUnmatch "aXa" 10
      = .done [aToken0, aToken2]
    ∧ jsSlice "aXa" (aToken0.end : Int) (aToken2.start : Int) = "X"
    ∧ jsTrim "X" ≠ "" := by
  refine ⟨rfl, rfl, by decide⟩

/-- The gap predicate strict mode actually enforces between two
consecutively yielded tokens: the input sliced from the previous
token's end to one position before the current token's start trims to
the empty string. -/
def gapOk (input : String) (p t : Token) : Prop :=
  jsTrim (jsSlice input (p.end : Int) ((t.start : Int) - 1)) = ""

/-- Strict-mode safety invariant of the tokenize loop: if the loop ends
normally, every pair of consecutively yielded tokens satisfies the
(actually enforced) gap predicate.  The accumulator hypotheses are the
loop invariant: the accumulated tokens already form a gapOk chain and
the remembered last token is the most recently accumulated one. -/
theorem tokenizeLoop_done_chain (mexec : Matcher) (cs : List Competence) (input : String) :
    ∀ (fuel li : Nat) (last : Option Token) (acc toks : List Token),
      List.Chain' (gapOk input) acc →
      (last = none → acc = []) →
      (∀ p, last = some p → acc.getLast? = some p) →
      tokenizeLoop mexec cs FailWhenUnmatch input fuel li last acc = .done toks →
      List.Chain' (gapOk input) toks := by
  intro fuel
  induction fuel with
  | zero =>
    intro li last acc toks h1 _ _ h
    rw [tokenizeLoop] at h
    exact absurd h (by simp)
  | succ n ih =>
    intro li last acc toks h1 h2 h3 h
    rw [tokenizeLoop] at h
    split at h
    · obtain rfl : acc = toks := by injection h
      exact h1
    · split at h
      · exact ih _ _ _ _ h1 h2 h3 h
      · split at h
        · exact absurd h (by simp)
        · rename_i token heq
          split at h
          · split at h
            · rename_i _ lastTok
              split at h
              · exact absurd h (by simp)
              · rename_i htr
                refine ih _ _ _ _ ?_ ?_ ?_ h
                · refine List.Chain'.append h1 (by simp) ?_
                  intro x hx y hy
                  have hx' : x = lastTok := by
                    have hl := h3 lastTok rfl
                    rw [hl] at hx
                    have hxl : lastTok = x := by simpa using hx
                    exact hxl.symm
                  have hy' : y = token := by
                    have hyt : token = y := by simpa using hy
                    exact hyt.symm
                  subst hx'; subst hy'
                  simpa [gapOk, bne_iff_ne, not_not] using htr
                · intro hx; cases hx
                · intro q hq
                  obtain rfl : token = q := by injection hq
                  simp
            · rename_i hlastnone
              obtain rfl : acc = [] := h2 rfl
              refine ih _ _ _ _ (by simp) ?_ ?_ h
              · intro hx; cases hx
              · intro q hq
                obtain rfl : token = q := by injection hq
                simp
          · rename_i hopts
            exact absurd rfl hopts

/-- C4 amended: in strict mode the gap check between two consecutive
recognized tokens examines the input sliced from the previous token's
end up to one character before the current token's start (the final gap
character is never inspected): whenever tokenize ends normally, every
consecutive pair of yielded tokens satisfies that check, and whenever
the check fails at an iteration — the trimmed slice is nonempty — the
loop stops there with a fatal gap error reporting the trimmed slice
together with the current token's line and the column
token.start - trimmed.length. -/
theorem claim4_strict_gap_amended :
    (∀ (mexec : Matcher) (cs : List Competence) (input : String) (fuel : Nat)
        (toks : List Token),
      tokenize mexec cs FailWhenUnmatch input fuel = .done toks →
      List.Chain' (gapOk input) toks)
    ∧ (∀ (mexec : Matcher) (cs : List Competence) (input : String) (fuel li : Nat)
        (acc : List Token) (mr : MatchRes) (c : Competence) (token p : Token),
      mexec input li = some mr →
      cs.find? (fun c' => c'.patterns.foremost mr.text) = some c →
      mkToken c { text := mr.text, index := mr.index, input := input, groups := mr.groups }
        = .ok token →
      jsTrim (jsSlice input (p.end : Int) ((token.start : Int) - 1)) ≠ "" →
      tokenizeLoop mexec cs FailWhenUnmatch input (fuel + 1) li (some p) acc =
        .gapErr (jsTrim (jsSlice input (p.end : Int) ((token.start : Int) - 1)))
          token.line
          ((token.start : Int)
            - ((jsTrim (jsSlice input (p.end : Int) ((token.start : Int) - 1))).length : Int))
          acc) := by
  constructor
  · intro mexec cs input fuel toks h
    exact tokenizeLoop_done_chain mexec cs input fuel 0 none [] toks (by simp)
      (fun _ => rfl) (fun p hp => by cases hp) h
  · intro mexec cs input fuel li acc mr c token p hm hf hk ht
    rw [tokenizeLoop]
    simp only [hm, hf, hk]
    rw [if_pos (show (FailWhenUnmatch &&& FailWhenUnmatch != 0) = true from rfl)]
    rw [if_pos (bne_iff_ne.mpr ht)]

/-- The token for the "a" at index 0 of "aXXa". -/
def bToken0 : Token :=
  .mk aCompetence { text := "a", index := 0, input := "aXXa", groups := none } "" "" none [] []

/-- The token for the "a" at index 3 of "aXXa". -/
def bToken3 : Token :=
  .mk aCompetence { text := "a", index := 3, input := "aXXa", groups := none } "" "" none [] []

/-- C4 witness: the amended statement applied to concrete runs — the
"aXa" run ends normally with its yielded tokens satisfying the enforced
gap check, and on "aXXa", where the slice from the first token's end to
one before the second token's start is the non-whitespace "X", the loop
stops with the gap error. -/
theorem claim4_strict_gap_amended_w :
    List.Chain' (gapOk "aXa") [aToken0, aToken2]
    ∧ tokenizeLoop (litExec "a") [aCompetence] FailWhenUnmatch "aXXa" (9 + 1) 1
        (some bToken0) [bToken0] =
      .gapErr (jsTrim (jsSlice "aXXa" (bToken0.end : Int) ((bToken3.start : Int) - 1)))
        bToken3.line
        ((bToken3.start : Int)
          - ((jsTrim (jsSlice "aXXa" (bToken0.end : Int) ((bToken3.start : Int) - 1))).length : Int))
        [bToken0] := by
  constructor
  · exact claim4_strict_gap_amended.1 (litExec "a") [aCompetence] "aXa" 10 _
      claim4_strict_gap_cex.1
  · exact claim4_strict_gap_amended.2 (litExec "a") [aCompetence] "aXXa" 9 1 [bToken0]
      { index := 3, text := "a", groups := none } aCompetence bToken3 bToken0
      rfl rfl rfl (by decide)


/-- The fatal errors Logger.throw raises during BaseTranspiler.parse
(the logger always throws after printing): the illegal-token error of
_handleBefore on an empty result list (carrying the current token's
total, line and column), the unexpected-token error of _handleBefore on
an identifier mismatch (carrying only the popped token's total), the
unexpected-end error of _handleAfter on stream exhaustion, and the
unexpected-token error of _handleAfter (carrying the pulled token's
total, line and column). -/
inductive ParseError where
  | illegalToken (total : String) (line : Nat) (col : Int)
  | unexpectedBefore (total : String)
  | unexpectedEnd
  | unexpectedAfter (total : String) (line : Nat) (col : Int)

/-- BaseTranspiler._handleBefore: for each expected identifier pop the
most recent result token; no token left is the fatal illegal-token
error, an identifier mismatch the fatal unexpected-token error, and a
match pushes the popped token into the current token's eated.before.
Returns the remaining result list and the updated current token. -/
def handleBefore : List String → List Token → Token → Except ParseError (List Token × Token)
  | [], result, token => .ok (result, token)
  | expected :: rest, result, token =>
    match result.getLast? with
    | none => .error (.illegalToken token.total token.line token.column)
    | some prev =>
      if prev.competence.identifier = expected then
        handleBefore rest result.dropLast (token.withEatedBefore prev)
      else
        .error (.unexpectedBefore prev.total)

/-- BaseTranspiler._handleAfter: for each expected identifier pull the
next token from the still-lazy stream; exhaustion is the fatal
unexpected-end error, an identifier mismatch the fatal unexpected-token
error carrying the pulled token's total, line and column, and a match
pushes the pulled token into the current token's eated.after.  Returns
the remaining stream and the updated current token. -/
def handleAfter : List String → List Token → Token → Except ParseError (List Token × Token)
  | [], stream, token => .ok (stream, token)
  | expected :: rest, stream, token =>
    match stream with
    | [] => .error .unexpectedEnd
    | next :: stail =>
      if next.competence.identifier = expected then
        handleAfter rest stail (token.withEatedAfter next)
      else
        .error (.unexpectedAfter next.total next.line next.column)

/-- handleAfter never grows the stream. -/
theorem handleAfter_length : ∀ (es : List String) (stream : List Token) (t : Token)
    (out : List Token × Token), handleAfter es stream t = .ok out →
    out.1.length ≤ stream.length := by
  intro es
  induction es with
  | nil =>
    intro stream t out h
    obtain rfl : (stream, t) = out := by injection h
    exact Nat.le_refl _
  | cons e rest ih =>
    intro stream t out h
    cases stream with
    | nil => exact absurd h (by simp [handleAfter])
    | cons next stail =>
      simp only [handleAfter] at h
      split at h
      · exact Nat.le_trans (ih _ _ _ h) (Nat.le_succ _)
      · exact absurd h (by simp)

/-- BaseTranspiler.parse (the loop over the token iterator): if the
current token's competence declares eaters, run the before rule against
the result list and the after rule against the rest of the stream, then
append the (possibly updated) token to the result list. -/
def parseLoop (stream result : List Token) : Except ParseError (List Token) :=
  match stream with
  | [] => .ok result
  | t :: rest =>
    match t.competence.eaters with
    | none => parseLoop rest (result ++ [t])
    | some e =>
      match (match e.before with
        | some b => handleBefore b result t
        | none => .ok (result, t)) with
      | .error err => .error err
      | .ok (result1, t1) =>
        match e.after with
        | none => parseLoop rest (result1 ++ [t1])
        | some a =>
          match ha : handleAfter a rest t1 with
          | .error err => .error err
          | .ok (rest1, t2) => parseLoop rest1 (result1 ++ [t2])
termination_by stream.length
decreasing_by
  · simp [Nat.lt_succ_iff]
  · simp [Nat.lt_succ_iff]
  · simp only [List.length_cons, Nat.lt_succ_iff]
    exact handleAfter_length _ _ _ _ ha

/-- BaseTranspiler.parse from an empty result list. -/
def parse (stream : List Token) : Except ParseError (List Token) :=
  parseLoop stream []


/-- C5: the eater rules of BaseTranspiler.parse.  For a token whose
competence declares eaters.after = [id]: a following token with a
different identifier is a fatal unexpected-token error citing that
token's line and column, and an exhausted stream is a fatal
unexpected-end error.  For a token declaring eaters.before = [id] with
nothing previously emitted, a fatal illegal-token error is raised.  A
token successfully consumed by the before rule is removed from the
result list and stored in the consuming token's eated.before, and one
consumed by the after rule is pulled off the stream (never reaching the
result list) and stored in eated.after. -/
theorem claim5_eater_errors (t next prev : Token) (rest result : List Token) (eid : String) :
    (t.competence.eaters = some { before := none, after := some [eid] } →
      next.competence.identifier ≠ eid →
      parseLoop (t :: next :: rest) result =
        .error (.unexpectedAfter next.total next.line next.column))
    ∧ (t.competence.eaters = some { before := none, after := some [eid] } →
      parseLoop [t] result = .error .unexpectedEnd)
    ∧ (t.competence.eaters = some { before := some [eid], after := none } →
      parseLoop (t :: rest) [] = .error (.illegalToken t.total t.line t.column))
    ∧ (t.competence.eaters = some { before := some [eid], after := none } →
      prev.competence.identifier = eid →
      parseLoop (t :: rest) (result ++ [prev]) =
        parseLoop rest (result ++ [t.withEatedBefore prev]))
    ∧ (t.competence.eaters = some { before := none, after := some [eid] } →
      next.competence.identifier = eid →
      parseLoop (t :: next :: rest) result =
        parseLoop rest (result ++ [t.withEatedAfter next])) := by
  refine ⟨?_, ?_, ?_, ?_, ?_⟩
  · intro he hne
    rw [parseLoop.eq_def]
    simp only [he, handleAfter, handleBefore]
    rw [if_neg hne]
  · intro he
    rw [parseLoop.eq_def]
    simp only [he, handleAfter, handleBefore]
  · intro he
    rw [parseLoop.eq_def]
    simp only [he, handleBefore, List.getLast?_nil]
  · intro he hid
    rw [parseLoop.eq_def]
    simp only [he, handleBefore, List.getLast?_concat, List.dropLast_concat]
    rw [if_pos hid]
  · intro he hid
    rw [parseLoop.eq_def]
    simp only [he, handleBefore, handleAfter]
    rw [if_pos hid]

/-- Patterns that match anything, for building concrete test tokens. -/
def plainPatterns : Patterns :=
  { foremost := fun _ => true, opener := none, inside := none, closer := none }

/-- A competence declaring eaters.after = ["id"]. -/
def afterEaterCompetence : Competence :=
  { identifier := "root", patterns := plainPatterns
    eaters := some { before := none, after := some ["id"] }, flags := 0 }

/-- A competence declaring eaters.before = ["id"]. -/
def beforeEaterCompetence : Competence :=
  { identifier := "rootB", patterns := plainPatterns
    eaters := some { before := some ["id"], after := none }, flags := 0 }

/-- The competence with identifier "id" and no eaters. -/
def idCompetence : Competence :=
  { identifier := "id", patterns := plainPatterns, eaters := none, flags := 0 }

/-- A competence with identifier "other" and no eaters. -/
def otherCompetence : Competence :=
  { identifier := "other", patterns := plainPatterns, eaters := none, flags := 0 }

/-- A token of the after-eater competence. -/
def tokRoot : Token :=
  .mk afterEaterCompetence { text := "r", index := 0, input := "r id", groups := none }
    "" "" none [] []

/-- A token of the before-eater competence. -/
def tokRootB : Token :=
  .mk beforeEaterCompetence { text := "rb", index := 3, input := "id rb", groups := none }
    "" "" none [] []

/-- A token of the "id" competence. -/
def tokId : Token :=
  .mk idCompetence { text := "id", index := 0, input := "id rb", groups := none }
    "" "" none [] []

/-- A token of the "other" competence. -/
def tokOther : Token :=
  .mk otherCompetence { text := "other", index := 2, input := "r other", groups := none }
    "" "" none [] []

/-- C5 witness: the five conjuncts applied to concrete tokens — the
after-eater mismatch error, the unexpected-end error, the illegal-token
error of a before eater with an empty result list, the before-rule
consumption and the after-rule consumption. -/
theorem claim5_eater_errors_w :
    (parseLoop [tokRoot, tokOther] [] =
      .error (.unexpectedAfter tokOther.total tokOther.line tokOther.column))
    ∧ (parseLoop [tokRoot] [] = .error .unexpectedEnd)
    ∧ (parseLoop [tokRootB] [] =
      .error (.illegalToken tokRootB.total tokRootB.line tokRootB.column))
    ∧ (parseLoop [tokRootB] ([] ++ [tokId]) =
      parseLoop [] ([] ++ [tokRootB.withEatedBefore tokId]))
    ∧ (parseLoop [tokRoot, tokId] [] =
      parseLoop [] ([] ++ [tokRoot.withEatedAfter tokId])) := by
  refine ⟨?_, ?_, ?_, ?_, ?_⟩
  · exact (claim5_eater_errors tokRoot tokOther tokId [] [] "id").1 rfl (by decide)
  · exact (claim5_eater_errors tokRoot tokOther tokId [] [] "id").2.1 rfl
  · exact (claim5_eater_errors tokRootB tokOther tokId [] [] "id").2.2.1 rfl
  · exact (claim5_eater_errors tokRootB tokOther tokId [] [] "id").2.2.2.1 rfl rfl
  · exact (claim5_eater_errors tokRoot tokId tokId [] [] "id").2.2.2.2 rfl rfl


/-- A JavaScript runtime value as schema.ts can encounter it: the
primitive kinds the schemas in this repository use, arrays, and objects
carrying their prototype-chain class names (most derived first; a plain
object literal has chain ["Object"], a direct Node instance
["Node", "Object"], a Node subclass instance lists its own class first).
Functions, symbols and bigints are not modelled. -/
inductive JSValue where
  | vstr (s : String)
  | vnum (n : Int)
  | vbool (b : Bool)
  | vnull
  | vundefined
  | varr (items : List JSValue)
  | vobj (chain : List String) (fields : List (String × JSValue))

/-- The typeof operator on the modelled values (typeof null is
"object", as in JavaScript). -/
def typeofJS : JSValue → String
  | .vstr _ => "string"
  | .vnum _ => "number"
  | .vbool _ => "boolean"
  | .vnull => "object"
  | .vundefined => "undefined"
  | .varr _ => "object"
  | .vobj _ _ => "object"

/-- The prototype chain of value.constructor when boxing applies
(primitives box to their wrapper classes); only meaningful for
non-null, non-undefined values. -/
def ctorChain : JSValue → List String
  | .vstr _ => ["String", "Object"]
  | .vnum _ => ["Number", "Object"]
  | .vbool _ => ["Boolean", "Object"]
  | .vnull => []
  | .vundefined => []
  | .varr _ => ["Array", "Object"]
  | .vobj chain _ => chain

/-- `value instanceof C` for a class named cname: instanceof never boxes
primitives, is false on null/undefined, and otherwise walks the
prototype chain. -/
def jsInstanceOf (v : JSValue) (cname : String) : Bool :=
  match v with
  | .varr _ => cname ∈ ["Array", "Object"]
  | .vobj chain _ => cname ∈ chain
  | _ => false

/-- `key in value` for the object branch of the comparator (only reached
for non-null object-typed values).  Arrays expose "length" and their
canonical index strings; plain objects expose their own keys
(prototype-inherited members such as "toString" are not modelled — no
claim depends on them). -/
def jsHasKey (v : JSValue) (key : String) : Bool :=
  match v with
  | .varr items =>
    key == "length" ||
      (match key.toNat? with
       | some i => toString i == key && i < items.length
       | none => false)
  | .vobj _ fields => (fields.lookup key).isSome
  | _ => false

/-- `value[key]` for the object branch (undefined when absent). -/
def jsGetKey (v : JSValue) (key : String) : JSValue :=
  match v with
  | .varr items =>
    if key == "length" then .vnum items.length
    else
      match key.toNat? with
      | some i => items.getD i .vundefined
      | none => .vundefined
  | .vobj _ fields =>
    match fields.lookup key with
    | some x => x
    | none => .vundefined
  | _ => .vundefined

/-- A schema structure from schema.ts, covering its four spec kinds:
a primitive-name string, an array of specs, a plain object of specs,
and a constructor reference — with the base Node class reference kept
as its own case because _compare treats `schema === Node` specially. -/
inductive SchemaSpec where
  | primitive (name : String)
  | arr (specs : List SchemaSpec)
  | obj (fields : List (String × SchemaSpec))
  | ctorRef (cname : String)
  | nodeRef

/-- The `schema === Node` branch of Schema._compare, via
classes.ts isImplementing: reading value.constructor throws a TypeError
on null/undefined; isImplementing returns true when the constructor is
Node or a transitive subclass (prototype instanceof), and otherwise
reaches the inverted guard `if (basePrototype) throw` — Node.prototype
exists, so it throws instead of performing the structural member walk
(its own doc comment says it should throw only when the base has no
prototype).  isChild on the right of the disjunction is unreachable:
isImplementing never returns false. -/
def nodeBranch (v : JSValue) : Except String Bool :=
  match v with
  | .vnull => .error "TypeError: Cannot read properties of null (reading 'constructor')"
  | .vundefined => .error "TypeError: Cannot read properties of undefined (reading 'constructor')"
  | _ =>
    if "Node" ∈ ctorChain v then .ok true
    else .error "The base class/interface does not have a prototype."

mutual

/-- Schema._compare (schema.ts lines 58-103): string schemas are typeof
checks, array schemas check every element (against the single spec when
the schema has exactly one, else against the union), object schemas
require every spec key to exist and match recursively, function schemas
are instanceof checks — except the Node reference, which goes through
isImplementing and can throw — and anything else is false (the model's
spec type has no fifth case; the claims quantify over the four kinds).
Errors model thrown JavaScript exceptions, which propagate. -/
def compareSpec : SchemaSpec → JSValue → Except String Bool
  | .primitive name, v => .ok (typeofJS v == name)
  | .arr specs, v =>
    match v with
    | .varr items => arrItemsLoop specs items
    | _ => .ok false
  | .obj fields, v =>
    if typeofJS v == "object" && !(v matches .vnull) then objFieldsLoop fields v
    else .ok false
  | .ctorRef cname, v => .ok (jsInstanceOf v cname)
  | .nodeRef, v => nodeBranch v
termination_by spec _ => (sizeOf spec, 0)

/-- The for-of loop of the array branch: every element must match the
single spec (length 1) or some spec of the union (otherwise; an empty
spec list rejects every element, since `some` on it is false). -/
def arrItemsLoop : List SchemaSpec → List JSValue → Except String Bool
  | _, [] => .ok true
  | specs, item :: rest =>
    match specs with
    | [spec] => do
      let b ← compareSpec spec item
      if b then arrItemsLoop [spec] rest else .ok false
    | other => do
      let b ← unionSome other item
      if b then arrItemsLoop other rest else .ok false
termination_by specs items => (sizeOf specs, items.length + 1)

/-- `schema.some((type) => this._compare(item, type))`: stops at the
first match; a thrown error propagates. -/
def unionSome : List SchemaSpec → JSValue → Except String Bool
  | [], _ => .ok false
  | spec :: rest, item => do
    let b ← compareSpec spec item
    if b then .ok true else unionSome rest item
termination_by specs _ => (sizeOf specs, 1)

/-- The for-in loop of the object branch: every schema key must exist on
the value and its field must match recursively. -/
def objFieldsLoop : List (String × SchemaSpec) → JSValue → Except String Bool
  | [], _ => .ok true
  | (key, spec) :: rest, v =>
    if jsHasKey v key then do
      let b ← compareSpec spec (jsGetKey v key)
      if b then objFieldsLoop rest v else .ok false
    else .ok false
termination_by fields _ => (sizeOf fields, 0)

end

/-- A Schema object: identifier and structure. -/
structure Schema where
  identifier : String
  struct : SchemaSpec

/-- Schema.compare: compare a value against the schema structure. -/
def Schema.compare (s : Schema) (v : JSValue) : Except String Bool :=
  compareSpec s.struct v


/-- C6: evaluating Schema._compare at the Node-reference spec.  The
claim says compare returns a boolean and never throws, for the Node
capability reference with a value of any runtime type such as null or a
plain object; the code instead throws for both: a plain object reaches
the inverted prototype guard of isImplementing (which its own doc
comment says should fire only when the base has no prototype), and null
throws a TypeError when value.constructor is read.  A genuine Node
subclass instance still compares to true. -/
theorem claim6_compare_throws :
    compareSpec .nodeRef (.vobj ["Object"] [])
      = .error "The base class/interface does not have a prototype."
    ∧ compareSpec .nodeRef .vnull
      = .error "TypeError: Cannot read properties of null (reading 'constructor')"
    ∧ compareSpec .nodeRef (.vobj ["MyNode", "Node", "Object"] []) = .ok true := by
  refine ⟨?_, ?_, ?_⟩ <;> simp [compareSpec, nodeBranch, ctorChain]

/-- A produced Node as registry.ts sees it: a type tag, an opaque value,
and its serialize output.  `id` stands for the node's object identity
(the Map in the code is keyed by the node object itself); serialize is
the deterministic pure function the specification requires of node
authors, so its result is carried as a field. -/
structure Node where
  id : Nat
  type : String
  value : JSValue
  serialized : String

/-- The errors Registry can raise: SchemaNotFoundError from validate, a
propagated comparator exception, and the "failed validation" Error of
resolve. -/
inductive RegError where
  | schemaNotFound (typ : String)
  | compareThrow (msg : String)
  | failedValidation (typ : String)

/-- Registry state: the type-tag → Schema map (the Registry class is
itself a Map) and the node-identity → serialized-string cache. -/
structure Registry where
  schemas : List (String × Schema)
  serializations : List (Nat × String)

/-- Registry.validate (registry.ts lines 59-65): SchemaNotFoundError for
an unregistered type tag, else the schema comparator's verdict (whose
thrown exceptions propagate). -/
def Registry.validate (r : Registry) (n : Node) : Except RegError Bool :=
  match r.schemas.lookup n.type with
  | none => .error (.schemaNotFound n.type)
  | some schema =>
    match schema.compare n.value with
    | .ok b => .ok b
    | .error msg => .error (.compareThrow msg)

/-- Registry.batch (registry.ts lines 78-87): map validate over the
nodes, `try { validate; return true } catch { return false }` — the
boolean validate returns is discarded, only a thrown error produces
false. -/
def Registry.batch (r : Registry) (ns : List Node) : List Bool :=
  ns.map (fun n =>
    match r.validate n with
    | .ok _ => true
    | .error _ => false)

/-- The private Registry.serialize (registry.ts lines 119-126): return
the cached string for the node identity, else call the node's own
serialize, cache and return it.  The extra Nat counts how many times
node.serialize() was invoked. -/
def Registry.serialize (r : Registry) (n : Node) : String × Registry × Nat :=
  match r.serializations.lookup n.id with
  | some s => (s, r, 0)
  | none =>
    (n.serialized,
      { schemas := r.schemas, serializations := r.serializations ++ [(n.id, n.serialized)] },
      1)

/-- Registry.resolve (registry.ts lines 102-107): validate (errors
propagate), then — on a true verdict — either a fresh node.serialize()
call when skipCache is set, or the caching serialize; a false verdict
throws the failed-validation Error.  Returns the result, the registry
state after the call, and the number of node.serialize() invocations. -/
def Registry.resolve (r : Registry) (n : Node) (skipCache : Bool) :
    Except RegError String × Registry × Nat :=
  match r.validate n with
  | .error e => (.error e, r, 0)
  | .ok true =>
    if skipCache then (.ok n.serialized, r, 1)
    else
      match Registry.serialize r n with
      | (s, r1, k) => (.ok s, r1, k)
  | .ok false => (.error (.failedValidation n.type), r, 0)

/-- The schema registering "literal" values as strings, as in the
repository's own tests. -/
def literalRegistry : Registry :=
  { schemas := [("literal", { identifier := "literal", struct := .primitive "string" })]
    serializations := [] }

/-- A node of type "literal" whose value is a number, so its registered
schema's compare rejects it. -/
def badLiteralNode : Node :=
  { id := 0, type := "literal", value := .vnum 42, serialized := "42" }

/-- A node whose type tag is not registered. -/
def unregisteredNode : Node :=
  { id := 1, type := "missing", value := .vstr "x", serialized := "x" }

/-- C7: evaluating Registry.validate and Registry.batch.  validate does
throw SchemaNotFoundError for an unregistered tag, and batch never
throws — but for a node whose registered schema's compare rejects its
value (validate returns false without throwing) batch yields true, not
false as the claim states: the code returns true whenever validate does
not throw, discarding validate's boolean, against its own doc comment
("booleans indicating whether each node passes validation"). -/
theorem claim7_batch_discards_verdict :
    literalRegistry.validate unregisteredNode = .error (.schemaNotFound "missing")
    ∧ literalRegistry.validate badLiteralNode = .ok false
    ∧ literalRegistry.batch [badLiteralNode, unregisteredNode] = [true, false] := by
  refine ⟨?_, ?_, ?_⟩ <;>
    simp [Registry.validate, Registry.batch, literalRegistry, badLiteralNode,
      unregisteredNode, Schema.compare, compareSpec, typeofJS, List.lookup]


/-- Appending a fresh binding to an association list makes it found when
it was previously absent. -/
theorem lookup_append_of_none {l : List (Nat × String)} {k : Nat} (v : String)
    (h : l.lookup k = none) : (l ++ [(k, v)]).lookup k = some v := by
  induction l with
  | nil => simp [List.lookup]
  | cons p rest ih =>
    cases p with
    | mk k' v' =>
      by_cases hk : k = k'
      · subst hk
        simp [List.lookup] at h
      · have hbeq : (k == k') = false := by simpa using hk
        simp only [List.cons_append, List.lookup, hbeq] at h ⊢
        exact ih h

/-- C8: resolve caching.  For every node the registry validates to true:
resolving twice without skipCache returns the same successful string
while invoking the node's own serialize at most once across both calls;
every cache entry present before survives both calls (a cached
serialization is never invalidated); and resolving with skipCache calls
the node's serialize exactly once, bypassing the cache entirely (the
state is returned unchanged). -/
theorem claim8_resolve_cached (r : Registry) (n : Node)
    (hv : r.validate n = .ok true) :
    ((r.resolve n false).1 = ((r.resolve n false).2.1.resolve n false).1
      ∧ (∃ s, (r.resolve n false).1 = .ok s)
      ∧ (r.resolve n false).2.2 + ((r.resolve n false).2.1.resolve n false).2.2 ≤ 1
      ∧ (∀ p, p ∈ r.serializations →
          p ∈ ((r.resolve n false).2.1.resolve n false).2.1.serializations))
    ∧ r.resolve n true = (.ok n.serialized, r, 1) := by
  cases hc : r.serializations.lookup n.id with
  | some s =>
    have e1 : Registry.serialize r n = (s, r, 0) := by
      simp [Registry.serialize, hc]
    have q1 : r.resolve n false = (.ok s, r, 0) := by
      simp [Registry.resolve, hv, e1]
    refine ⟨⟨?_, ?_, ?_, ?_⟩, ?_⟩
    · simp [q1]
    · exact ⟨s, by simp [q1]⟩
    · simp [q1]
    · intro p hp
      simpa [q1] using hp
    · simp [Registry.resolve, hv]
  | none =>
    have e1 : Registry.serialize r n =
        (n.serialized,
          { schemas := r.schemas,
            serializations := r.serializations ++ [(n.id, n.serialized)] },
          1) := by
      simp [Registry.serialize, hc]
    have q1 : r.resolve n false =
        (.ok n.serialized,
          { schemas := r.schemas,
            serializations := r.serializations ++ [(n.id, n.serialized)] },
          1) := by
      simp [Registry.resolve, hv, e1]
    have hv2 : Registry.validate
        { schemas := r.schemas,
          serializations := r.serializations ++ [(n.id, n.serialized)] } n = .ok true := hv
    have hl2 : (List.lookup n.id
        (r.serializations ++ [(n.id, n.serialized)])) = some n.serialized :=
      lookup_append_of_none n.serialized hc
    have e2 : Registry.serialize
        { schemas := r.schemas,
          serializations := r.serializations ++ [(n.id, n.serialized)] } n =
        (n.serialized,
          { schemas := r.schemas,
            serializations := r.serializations ++ [(n.id, n.serialized)] },
          0) := by
      simp [Registry.serialize, hl2]
    have q2 : Registry.resolve
        { schemas := r.schemas,
          serializations := r.serializations ++ [(n.id, n.serialized)] } n false =
        (.ok n.serialized,
          { schemas := r.schemas,
            serializations := r.serializations ++ [(n.id, n.serialized)] },
          0) := by
      simp [Registry.resolve, hv2, e2]
    refine ⟨⟨?_, ?_, ?_, ?_⟩, ?_⟩
    · simp [q1, q2]
    · exact ⟨n.serialized, by simp [q1]⟩
    · simp [q1, q2]
    · intro p hp
      simp [q1, q2]
      exact Or.inl hp
    · simp [Registry.resolve, hv]

/-- The node of type "literal" carrying the string value "hi", which its
registered schema accepts. -/
def goodLiteralNode : Node :=
  { id := 2, type := "literal", value := .vstr "hi", serialized := "hi" }

/-- C8 witness: the statement applied to the literal registry and an
accepted node. -/
theorem claim8_resolve_cached_w :
    (literalRegistry.resolve goodLiteralNode false).1
        = ((literalRegistry.resolve goodLiteralNode false).2.1.resolve goodLiteralNode false).1
    ∧ literalRegistry.resolve goodLiteralNode true = (.ok "hi", literalRegistry, 1) := by
  have hv : literalRegistry.validate goodLiteralNode = .ok true := by
    simp [Registry.validate, literalRegistry, goodLiteralNode, Schema.compare,
      compareSpec, typeofJS, List.lookup]
  exact ⟨(claim8_resolve_cached literalRegistry goodLiteralNode hv).1.1,
    (claim8_resolve_cached literalRegistry goodLiteralNode hv).2⟩

/-- C10: whenever resolve throws — the type tag is unregistered, the
comparator itself throws, or the schema's compare rejects the value —
the registry state (in particular the serializations cache) is returned
unchanged; in every case the cache after the call is either untouched or
extended by exactly the entry mapping the node's identity to the output
of the node's own serialize, the latter only when validate returned
true; and the schema map is never changed by resolve. -/
theorem claim10_error_cache_unchanged (r : Registry) (n : Node) (skip : Bool) :
    (∀ e, (r.resolve n skip).1 = .error e → (r.resolve n skip).2.1 = r)
    ∧ ((r.resolve n skip).2.1.serializations = r.serializations
      ∨ (r.validate n = .ok true
        ∧ (r.resolve n skip).2.1.serializations
            = r.serializations ++ [(n.id, n.serialized)]))
    ∧ (r.resolve n skip).2.1.schemas = r.schemas := by
  cases hv : r.validate n with
  | error e =>
    have q : r.resolve n skip = (.error e, r, 0) := by
      simp [Registry.resolve, hv]
    exact ⟨fun e' _ => by simp [q], Or.inl (by simp [q]), by simp [q]⟩
  | ok b =>
    cases b with
    | false =>
      have q : r.resolve n skip = (.error (.failedValidation n.type), r, 0) := by
        simp [Registry.resolve, hv]
      exact ⟨fun e' _ => by simp [q], Or.inl (by simp [q]), by simp [q]⟩
    | true =>
      cases skip with
      | true =>
        have q : r.resolve n true = (.ok n.serialized, r, 1) := by
          simp [Registry.resolve, hv]
        exact ⟨fun e' he' => by simp [q] at he', Or.inl (by simp [q]), by simp [q]⟩
      | false =>
        cases hc : r.serializations.lookup n.id with
        | some s =>
          have e1 : Registry.serialize r n = (s, r, 0) := by
            simp [Registry.serialize, hc]
          have q : r.resolve n false = (.ok s, r, 0) := by
            simp [Registry.resolve, hv, e1]
          exact ⟨fun e' he' => by simp [q] at he', Or.inl (by simp [q]), by simp [q]⟩
        | none =>
          have e1 : Registry.serialize r n =
              (n.serialized,
                { schemas := r.schemas,
                  serializations := r.serializations ++ [(n.id, n.serialized)] },
                1) := by
            simp [Registry.serialize, hc]
          have q : r.resolve n false =
              (.ok n.serialized,
                { schemas := r.schemas,
                  serializations := r.serializations ++ [(n.id, n.serialized)] },
                1) := by
            simp [Registry.resolve, hv, e1]
          exact ⟨fun e' he' => by simp [q] at he', Or.inr ⟨rfl, by simp [q]⟩, by simp [q]⟩

/-- C10 witness: the statement applied to an unregistered node — resolve
throws SchemaNotFoundError and the registry state is unchanged. -/
theorem claim10_error_cache_unchanged_w :
    (literalRegistry.resolve unregisteredNode false).2.1 = literalRegistry :=
  (claim10_error_cache_unchanged literalRegistry unregisteredNode false).1
    (.schemaNotFound "missing") (by simp [Registry.resolve, Registry.validate,
      literalRegistry, unregisteredNode, List.lookup])


end Akore
